import Mathlib

/-!
Shallow embedding of the anywherechat repository.

The repository contains three server variants:
* the durable-membership variant of `src/back/server.js` (first half of the
  file): rooms carry a `members` array of user ids (the OWNED_PERSISTENT
  mode of the spec) — namespace `Persistent`;
* the ephemeral variant of `src/back/server.js` (second half): rooms carry
  only `name` and `owner`, socket-room presence is the only membership
  (the OPEN_EPHEMERAL mode) — namespace `Ephemeral`;
* the minimal socket handler of `src/server/src/socket.js` — namespace
  `Minimal`.

Handlers are embedded as pure functions from an explicit state to a new
state together with a trace of observable actions (DB saves, outgoing
mention e-mails, socket emits, callback acknowledgments, console error
logs), in the order the JavaScript code performs them.  Fallible I/O
(Message.save, transporter.sendMail) is modelled by boolean oracles.
-/

namespace AnywhereChat

abbrev UserId := Nat
abbrev RoomId := Nat

/-- A directory user (User model: username and email unique; password
omitted — it never influences the handlers embedded here). -/
structure User where
  id : UserId
  username : String
  email : String
deriving DecidableEq

/-- The identity a verified JWT binds to a connection
(`{ userId, username }`, as signed at login). -/
structure AuthUser where
  userId : UserId
  username : String
deriving DecidableEq

/-! ### Mention extraction

`src/back/server.js` uses `message.match(regex)` with two global regexes:
`/@([\w.-]+@[\w.-]+\.[A-Za-z]{2,})/g` (persistent variant, e-mail shaped)
and `/@(\w+)/g` (ephemeral variant, username shaped).  We embed the exact
JavaScript matching semantics: scan left to right, at each position try the
pattern (greedy character classes with backtracking), on success record the
full match and resume after it. -/

/-- JavaScript `\w`: ASCII letters, digits, underscore. -/
def isWordChar (c : Char) : Bool := c.isAlpha || c.isDigit || c == '_'

/-- The character class `[\w.-]`. -/
def isWDH (c : Char) : Bool := isWordChar c || c == '.' || c == '-'

/-- Attempt the tail `\.[A-Za-z]{2,}` inside the greedy run `R` of
`[\w.-]` characters, with the dot at index `k`; returns the matched
domain characters and the unconsumed remainder of `R`.  (The literal dot
is necessarily inside `R`, since `.` itself belongs to the class.) -/
def domSplitAt (R : List Char) (k : Nat) : Option (List Char × List Char) :=
  if h : k < R.length then
    if R.get ⟨k, h⟩ == '.' && decide (1 ≤ k) &&
        decide (2 ≤ ((R.drop (k+1)).takeWhile Char.isAlpha).length) then
      some (R.take k ++ '.' :: (R.drop (k+1)).takeWhile Char.isAlpha,
            (R.drop (k+1)).dropWhile Char.isAlpha)
    else none
  else none

/-- Backtracking for `[\w.-]+\.[A-Za-z]{2,}`: the greedy `[\w.-]+` gives
characters back one at a time, so the largest working dot index wins. -/
def domSplit (R : List Char) : Option (List Char × List Char) :=
  (List.range R.length).reverse.findSome? (domSplitAt R)

/-- One attempt of `@([\w.-]+@[\w.-]+\.[A-Za-z]{2,})` anchored at the head
of `l`; on success returns (full match, rest of the input). -/
def emailMatchAt (l : List Char) : Option (List Char × List Char) :=
  match l with
  | '@' :: rest =>
    let localPart := rest.takeWhile isWDH
    let rest1 := rest.dropWhile isWDH
    if localPart.length == 0 then none
    else
      match rest1 with
      | '@' :: rest2 =>
        let R := rest2.takeWhile isWDH
        let rest3 := rest2.dropWhile isWDH
        match domSplit R with
        | some (dom, leftover) =>
          some ('@' :: localPart ++ '@' :: dom, leftover ++ rest3)
        | none => none
      | _ => none
  | _ => none

/-- One attempt of `@(\w+)` anchored at the head of `l`. -/
def usernameMatchAt (l : List Char) : Option (List Char × List Char) :=
  match l with
  | '@' :: rest =>
    let w := rest.takeWhile isWordChar
    if w.length == 0 then none
    else some ('@' :: w, rest.dropWhile isWordChar)
  | _ => none

/-- Global scan (the `g` flag): try the pattern at each position, emit the
match and resume after it.  Fuel bounds the recursion; each step consumes
at least one character, so fuel = input length never runs out. -/
def scanAux (f : List Char → Option (List Char × List Char)) :
    Nat → List Char → List (List Char)
  | 0, _ => []
  | _, [] => []
  | fuel+1, c :: cs =>
    match f (c :: cs) with
    | some (m, rest) => m :: scanAux f fuel rest
    | none => scanAux f fuel cs

/-- `message.match(/@([\w.-]+@[\w.-]+\.[A-Za-z]{2,})/g)` (null becomes the
empty list, matching the `if (mentions)` guard skipping the loop). -/
def emailMentionMatches (s : String) : List String :=
  (scanAux emailMatchAt s.toList.length s.toList).map List.asString

/-- `message.match(/@(\w+)/g)`. -/
def usernameMentionMatches (s : String) : List String :=
  (scanAux usernameMatchAt s.toList.length s.toList).map List.asString

/-! ### Durable-membership variant (`src/back/server.js`, first half) -/

namespace Persistent

/-- Room model of the durable variant: `{ name (unique), members : [ObjectId] }`.
There is no owner field in this schema. -/
structure Room where
  id : RoomId
  name : String
  members : List UserId
deriving DecidableEq

/-- Message model: `{ room, user, text, createdAt }`. -/
structure Message where
  room : RoomId
  user : UserId
  text : String
  createdAt : Nat
deriving DecidableEq

/-- The payload of the server-to-client `chatMessage` event. -/
structure ChatPayload where
  userId : UserId
  username : String
  text : String
  createdAt : Nat
deriving DecidableEq

/-- A socket callback acknowledgment payload. -/
inductive AckPayload where
  | success (msg : String)
  | error (msg : String)
deriving DecidableEq

/-- Observable actions a handler performs, in program order:
durable append, outgoing mention e-mail (recorded when the send is
attempted), room broadcast, callback acknowledgment, console error log. -/
inductive Action where
  | save (m : Message)
  | sendMail (toAddr : String)
  | emitChat (roomId : RoomId) (p : ChatPayload)
  | ack (p : AckPayload)
  | logErr (s : String)
deriving DecidableEq

/-- Server state: user directory, room collection, message log, and a
monotone clock supplying `Date.now` for `createdAt` defaults.  `nextId`
models ObjectId generation for new rooms. -/
structure PState where
  users : List User
  rooms : List Room
  messages : List Message
  nextId : Nat
  now : Nat
deriving DecidableEq

/-- `Room.findById(roomId)`. -/
def findRoomById (rooms : List Room) (rid : RoomId) : Option Room :=
  rooms.find? (fun r => r.id == rid)

/-- `User.findOne({ email })`. -/
def findUserByEmail (users : List User) (e : String) : Option User :=
  users.find? (fun u => u.email == e)

/-- One iteration of the mention loop in the `chatMessage` handler:
strip the leading `@`, look the user up by e-mail, and if found and not in
the room's member array, attempt `transporter.sendMail` (the attempt is
recorded; a failure is caught and only logged). -/
def mentionStep (users : List User) (room : Room) (mailOk : String → Bool)
    (mention : String) : List Action :=
  match findUserByEmail users (mention.drop 1) with
  | none => []
  | some userMentioned =>
    if room.members.contains userMentioned.id then []
    else if mailOk (mention.drop 1) then [Action.sendMail (mention.drop 1)]
    else [Action.sendMail (mention.drop 1),
          Action.logErr "Failed to send mention email"]

/-- The whole mention loop over the regex match list. -/
def mentionActions (users : List User) (room : Room) (mailOk : String → Bool)
    (ms : List String) : List Action :=
  (ms.map (mentionStep users room mailOk)).flatten

/-- Payload of the client-to-server `chatMessage` event. -/
structure ChatData where
  roomId : RoomId
  message : String

/-- The `socket.on(chatMessage)` handler of the durable variant:
look the room up; silently return on a missing room or a sender outside
the member array (the source reads `return; // or handle error` — no
callback exists); otherwise save the message (a save failure jumps to the
catch block, which only logs), run the mention loop, and finally emit to
the room.  `saveOk` and `mailOk` are the failure oracles for
`newMessage.save()` and `transporter.sendMail`. -/
def chatMessage (st : PState) (user : AuthUser) (data : ChatData)
    (saveOk : Bool) (mailOk : String → Bool) : PState × List Action :=
  match findRoomById st.rooms data.roomId with
  | none => (st, [])
  | some room =>
    if !(room.members.contains user.userId) then (st, [])
    else
      let newMessage : Message :=
        { room := data.roomId, user := user.userId,
          text := data.message, createdAt := st.now }
      if !saveOk then (st, [Action.logErr "Error sending message"])
      else
        ({ st with messages := st.messages ++ [newMessage], now := st.now + 1 },
         Action.save newMessage ::
         mentionActions st.users room mailOk (emailMentionMatches data.message) ++
         [Action.emitChat data.roomId
           { userId := user.userId, username := user.username,
             text := data.message, createdAt := newMessage.createdAt }])

/-- The `socket.on(joinRoom)` handler of the durable variant: the same
lookup and member-array check as `chatMessage`, but its outcome is
surfaced through the callback. -/
def joinRoom (st : PState) (user : AuthUser) (roomId : RoomId) : List Action :=
  match findRoomById st.rooms roomId with
  | none => [Action.ack (AckPayload.error "Room not found")]
  | some room =>
    if !(room.members.contains user.userId) then
      [Action.ack (AckPayload.error "You are not a member of this room")]
    else
      [Action.ack (AckPayload.success "Joined the room")]

/-- Result of `POST /rooms`. -/
inductive CreateResult where
  | nameRequired
  | nameTaken
  | created (r : Room)
deriving DecidableEq

/-- `POST /rooms`: unique-name check, then a room whose member array holds
exactly the creator. -/
def createRoom (st : PState) (requester : UserId) (name : String) :
    PState × CreateResult :=
  if name == "" then (st, CreateResult.nameRequired)
  else
    match st.rooms.find? (fun r => r.name == name) with
    | some _ => (st, CreateResult.nameTaken)
    | none =>
      let newRoom : Room := { id := st.nextId, name := name, members := [requester] }
      ({ st with rooms := st.rooms ++ [newRoom], nextId := st.nextId + 1 },
       CreateResult.created newRoom)

/-- Result of `POST /rooms/:roomId/join`. -/
inductive JoinRestResult where
  | notFound
  | alreadyIn
  | joined
deriving DecidableEq

/-- `POST /rooms/:roomId/join`: push the requester onto the member array. -/
def joinRoomRest (st : PState) (requester : UserId) (roomId : RoomId) :
    PState × JoinRestResult :=
  match findRoomById st.rooms roomId with
  | none => (st, JoinRestResult.notFound)
  | some room =>
    if room.members.contains requester then (st, JoinRestResult.alreadyIn)
    else
      let room2 : Room := { room with members := room.members ++ [requester] }
      ({ st with rooms := st.rooms.map (fun r => if r.id == roomId then room2 else r) },
       JoinRestResult.joined)

/-- Result of `DELETE /rooms/:roomId`. -/
inductive DeleteResult where
  | notFound
  | notMember
  | deleted
deriving DecidableEq

/-- `DELETE /rooms/:roomId` of the durable variant: the guard is
`room.members.includes(req.user.userId)` — membership, not ownership. -/
def deleteRoom (st : PState) (requester : UserId) (roomId : RoomId) :
    PState × DeleteResult :=
  match findRoomById st.rooms roomId with
  | none => (st, DeleteResult.notFound)
  | some room =>
    if !(room.members.contains requester) then (st, DeleteResult.notMember)
    else
      ({ st with rooms := st.rooms.filter (fun r => r.id != roomId) },
       DeleteResult.deleted)

/-- The await structure of an accepted `chatMessage` run, as chunks of
actions separated by suspension points of the handler: the save completes
at its own await; each mention occurrence spans further awaits
(`User.findOne`, `transporter.sendMail`); the final emit runs
synchronously when the last await resumes — with no mentions at all it
runs in the very turn the save resumes.  Between two chunks of one
handler, chunks of concurrently running handlers may execute. -/
def chatChunks (st : PState) (user : AuthUser) (data : ChatData)
    (saveOk : Bool) (mailOk : String → Bool) : List (List Action) :=
  match findRoomById st.rooms data.roomId with
  | none => [[]]
  | some room =>
    if !(room.members.contains user.userId) then [[]]
    else
      let newMessage : Message :=
        { room := data.roomId, user := user.userId,
          text := data.message, createdAt := st.now }
      if !saveOk then [[Action.logErr "Error sending message"]]
      else
        let emitAction := Action.emitChat data.roomId
          { userId := user.userId, username := user.username,
            text := data.message, createdAt := newMessage.createdAt }
        match emailMentionMatches data.message with
        | [] => [[Action.save newMessage, emitAction]]
        | m :: ms =>
          [Action.save newMessage] ::
          ((m :: ms).map (mentionStep st.users room mailOk)) ++
          [[emitAction]]

end Persistent

/-! ### Ephemeral variant (`src/back/server.js`, second half) -/

namespace Ephemeral

/-- Room model of the ephemeral variant: `{ name (unique), owner }`;
no member array exists. -/
structure Room where
  id : RoomId
  name : String
  owner : UserId
deriving DecidableEq

/-- Message model (identical shape to the durable variant). -/
structure Message where
  room : RoomId
  user : UserId
  text : String
  createdAt : Nat
deriving DecidableEq

/-- Payload of the server-to-client `chatMessage` event. -/
structure ChatPayload where
  userId : UserId
  username : String
  text : String
  createdAt : Nat
deriving DecidableEq

/-- A socket callback acknowledgment payload. -/
inductive AckPayload where
  | success (msg : String)
  | error (msg : String)
deriving DecidableEq

/-- Observable actions; broadcasts are keyed by room *name* here, since
the handler emits to the socket room named after the chat room. -/
inductive Action where
  | save (m : Message)
  | sendMail (toAddr : String)
  | emitChat (roomName : String) (p : ChatPayload)
  | ack (p : AckPayload)
  | logErr (s : String)
deriving DecidableEq

/-- Server state.  `present` is the socket-room presence relation
maintained by `socket.join`: the pair `(roomName, userId)` records a live
session of that user joined to that socket room — the only membership
notion that exists in this variant. -/
structure EState where
  users : List User
  rooms : List Room
  messages : List Message
  present : List (String × UserId)
  now : Nat
deriving DecidableEq

/-- `Room.findOne({ name })`. -/
def findRoomByName (rooms : List Room) (n : String) : Option Room :=
  rooms.find? (fun r => r.name == n)

/-- `User.findOne({ username })`. -/
def findUserByUsername (users : List User) (n : String) : Option User :=
  users.find? (fun u => u.username == n)

/-- `socket.on(joinRoom)` of the ephemeral variant: no lookup, no check —
just `socket.join(roomName)` and a success callback. -/
def joinRoom (st : EState) (user : AuthUser) (roomName : String) :
    EState × List Action :=
  ({ st with present := st.present ++ [(roomName, user.userId)] },
   [Action.ack (AckPayload.success "Joined the room (ephemeral)")])

/-- One iteration of the mention loop: resolve the bare username; when it
resolves, attempt the e-mail unconditionally — the source carries no
membership or presence guard here (its own comment reads
`(No DB membership check now)`). -/
def mentionStep (users : List User) (mailOk : String → Bool)
    (mention : String) : List Action :=
  match findUserByUsername users (mention.drop 1) with
  | none => []
  | some userMentioned =>
    if mailOk userMentioned.email then [Action.sendMail userMentioned.email]
    else [Action.sendMail userMentioned.email,
          Action.logErr "Failed to send mention email"]

/-- The whole mention loop over the regex match list. -/
def mentionActions (users : List User) (mailOk : String → Bool)
    (ms : List String) : List Action :=
  (ms.map (mentionStep users mailOk)).flatten

/-- Payload of the client-to-server `chatMessage` event. -/
structure ChatData where
  roomName : String
  message : String

/-- `socket.on(chatMessage)` of the ephemeral variant: the ephemeral
membership check is commented out in the source, so the handler looks the
room up by name, saves, runs the username mention loop, and emits — it
never reads `present`. -/
def chatMessage (st : EState) (user : AuthUser) (data : ChatData)
    (saveOk : Bool) (mailOk : String → Bool) : EState × List Action :=
  match findRoomByName st.rooms data.roomName with
  | none => (st, [])
  | some room =>
    let newMessage : Message :=
      { room := room.id, user := user.userId,
        text := data.message, createdAt := st.now }
    if !saveOk then (st, [Action.logErr "Error sending message"])
    else
      ({ st with messages := st.messages ++ [newMessage], now := st.now + 1 },
       Action.save newMessage ::
       mentionActions st.users mailOk (usernameMentionMatches data.message) ++
       [Action.emitChat data.roomName
         { userId := user.userId, username := user.username,
           text := data.message, createdAt := newMessage.createdAt }])

/-- Result of `DELETE /rooms/:roomName`. -/
inductive DeleteResult where
  | notFound
  | notOwner
  | deleted
deriving DecidableEq

/-- `DELETE /rooms/:roomName` of the ephemeral variant: owner-only. -/
def deleteRoom (st : EState) (requester : UserId) (roomName : String) :
    EState × DeleteResult :=
  match findRoomByName st.rooms roomName with
  | none => (st, DeleteResult.notFound)
  | some room =>
    if !(room.owner == requester) then (st, DeleteResult.notOwner)
    else
      ({ st with rooms := st.rooms.filter (fun r => r.id != room.id) },
       DeleteResult.deleted)

/-- Result of `GET /rooms/:roomName/messages`.  A `forbidden` outcome is
part of the response vocabulary of the app (it is what the commented-out
owner check would produce); the handler below never returns it. -/
inductive MessagesResult where
  | notFound
  | forbidden
  | ok (msgs : List Message)
deriving DecidableEq

/-- `GET /rooms/:roomName/messages`: after the room lookup, the full
message list of the room is returned to any authenticated requester — the
source explicitly performs no membership check. -/
def getMessages (st : EState) (requester : AuthUser) (roomName : String) :
    MessagesResult :=
  match findRoomByName st.rooms roomName with
  | none => MessagesResult.notFound
  | some room =>
    MessagesResult.ok (st.messages.filter (fun m => m.room == room.id))

end Ephemeral

/-! ### Minimal socket handler (`src/server/src/socket.js`) -/

namespace Minimal

/-- Message model of `src/server/src/models/message.js`:
`{ roomId, sender, content, createdAt }`.  `sender` is whatever `userId`
string the client supplied in the event payload. -/
structure MMessage where
  roomId : String
  sender : String
  content : String
  createdAt : Nat
deriving DecidableEq

/-- Observable actions of the minimal handler. -/
inductive Action where
  | save (m : MMessage)
  | emitNew (roomId : String) (m : MMessage)
deriving DecidableEq

/-- State: the message collection, the socket-room presence added by
`joinRoom`, and the clock.  There is no session identity: no
authentication middleware exists in this variant. -/
structure MState where
  messages : List MMessage
  present : List (String × String)
  now : Nat
deriving DecidableEq

/-- Payload of the `sendMessage` event: everything, including the claimed
author `userId`, comes from the client. -/
structure SendPayload where
  roomId : String
  userId : String
  content : String
deriving DecidableEq

/-- `socket.on(joinRoom)`: just `socket.join(roomId)`. -/
def joinRoom (st : MState) (roomId userId : String) : MState :=
  { st with present := st.present ++ [(roomId, userId)] }

/-- `socket.on(sendMessage)`: build a message whose `sender` is the
client-supplied `userId`, save it, and emit `newMessage` with the same
fields to the room.  No identity check of any kind is performed. -/
def sendMessage (st : MState) (p : SendPayload) : MState × List Action :=
  let newMessage : MMessage :=
    { roomId := p.roomId, sender := p.userId,
      content := p.content, createdAt := st.now }
  ({ st with messages := st.messages ++ [newMessage], now := st.now + 1 },
   [Action.save newMessage, Action.emitNew p.roomId newMessage])

end Minimal

/-! ### Handshake authentication (`io.use` in both halves of
`src/back/server.js`) and connection-level dispatch -/

/-- A signed JWT, modelled as its payload plus the secret it was signed
with; `jwt.verify` succeeds exactly when the secrets agree. -/
structure SignedToken where
  payload : AuthUser
  secret : String
deriving DecidableEq

/-- `jwt.verify(token, JWT_SECRET)`. -/
def jwtVerify (t : SignedToken) (secret : String) : Option AuthUser :=
  if t.secret == secret then some t.payload else none

/-- Outcome of the `io.use` middleware on the handshake token. -/
inductive AdmitResult where
  | noToken
  | invalidToken
  | admitted (u : AuthUser)
deriving DecidableEq

/-- The `io.use` middleware: reject a missing token, reject a token whose
verification fails, otherwise bind the decoded identity to the socket. -/
def ioUse (handshakeToken : Option SignedToken) (serverSecret : String) :
    AdmitResult :=
  match handshakeToken with
  | none => AdmitResult.noToken
  | some t =>
    match jwtVerify t serverSecret with
    | none => AdmitResult.invalidToken
    | some u => AdmitResult.admitted u

namespace Persistent

/-- A client-to-server socket event of the durable variant. -/
inductive PEvent where
  | joinRoom (roomId : RoomId)
  | chatMessage (d : ChatData)

/-- Run a sequence of events for an admitted socket, threading the state
and concatenating the traces (I/O oracles fixed to success). -/
def runEvents (st : PState) (u : AuthUser) : List PEvent → PState × List Action
  | [] => (st, [])
  | PEvent.joinRoom rid :: evs =>
    let tr := joinRoom st u rid
    let rest := runEvents st u evs
    (rest.1, tr ++ rest.2)
  | PEvent.chatMessage d :: evs =>
    let r := chatMessage st u d true (fun _ => true)
    let rest := runEvents r.1 u evs
    (rest.1, r.2 ++ rest.2)

/-- A whole connection: the `io.use` middleware runs on the handshake
before any event handler is installed; a rejected connection produces an
auth error and none of its events are processed. -/
def processConnection (st : PState) (tok : Option SignedToken)
    (secret : String) (evs : List PEvent) :
    PState × List Action × Option String :=
  match ioUse tok secret with
  | AdmitResult.noToken => (st, [], some "No token provided")
  | AdmitResult.invalidToken => (st, [], some "Invalid token")
  | AdmitResult.admitted u =>
    let r := runEvents st u evs
    (r.1, r.2, none)

/-! ### Trace projections and execution models (durable variant) -/

/-- The append a trace action performs, projected to author and text. -/
def saveProj : Action → Option (UserId × String)
  | Action.save m => some (m.user, m.text)
  | _ => none

/-- The broadcast a trace action performs, projected to author and text. -/
def emitProj : Action → Option (UserId × String)
  | Action.emitChat _ p => some (p.userId, p.text)
  | _ => none

/-- The sequence of appended messages of a trace, in order. -/
def saveOrder (tr : List Action) : List (UserId × String) := tr.filterMap saveProj

/-- The sequence of broadcast messages of a trace, in order. -/
def emitOrder (tr : List Action) : List (UserId × String) := tr.filterMap emitProj

/-- The notification e-mail addresses a trace sends to, in order. -/
def mailsOf (tr : List Action) : List String :=
  tr.filterMap (fun a => match a with | Action.sendMail e => some e | _ => none)

/-- The broadcast actions of a trace. -/
def emitsOf (tr : List Action) : List Action :=
  tr.filter (fun a => match a with | Action.emitChat _ _ => true | _ => false)

/-- The notification sends a trace performs strictly before its first
broadcast — nonempty exactly when the broadcast had to wait for a
notification delivery. -/
def mailsBeforeEmit (tr : List Action) : List String :=
  mailsOf (tr.takeWhile (fun a => match a with | Action.emitChat _ _ => false | _ => true))

/-- Sequential execution: each accepted post's handler runs to completion
before the next one starts; traces concatenate in acceptance order. -/
def runPosts (st : PState) (mailOk : String → Bool) :
    List (AuthUser × ChatData × Bool) → PState × List Action
  | [] => (st, [])
  | (u, d, ok) :: ps =>
    let r := chatMessage st u d ok mailOk
    let rest := runPosts r.1 mailOk ps
    (rest.1, r.2 ++ rest.2)

/-- The intended notification targets of a message, one entry per regex
occurrence that resolves to a user outside the member array (duplicates
kept) — the vocabulary in which the mention loop output is stated. -/
def notifTargets (users : List User) (room : Room) (ms : List String) : List String :=
  ms.filterMap (fun m =>
    match findUserByEmail users (m.drop 1) with
    | none => none
    | some u => if room.members.contains u.id then none else some (m.drop 1))

end Persistent

/-- `Shuffle l₁ l₂ l`: `l` is an interleaving of `l₁` and `l₂` that keeps
the internal order of each.  With chunk lists of two concurrently running
handlers, this is the set of schedules the event loop may produce. -/
inductive Shuffle {α : Type} : List α → List α → List α → Prop
  | nil : Shuffle [] [] []
  | left {a : α} {l₁ l₂ l : List α} :
      Shuffle l₁ l₂ l → Shuffle (a :: l₁) l₂ (a :: l)
  | right {a : α} {l₁ l₂ l : List α} :
      Shuffle l₁ l₂ l → Shuffle l₁ (a :: l₂) (a :: l)

/-! ### Concrete fixtures -/

namespace Persistent

/-- Room `general` owned (created) by alice, bob not a member. -/
def stGeneral : PState :=
  { users := [⟨1, "alice", "alice@x.com"⟩, ⟨2, "bob", "bob@x.com"⟩],
    rooms := [⟨0, "general", [1]⟩],
    messages := [], nextId := 1, now := 0 }

/-- Room `general` with bob in the member array as well. -/
def stBobMember : PState :=
  { users := [⟨1, "alice", "alice@x.com"⟩, ⟨2, "bob", "bob@x.com"⟩],
    rooms := [⟨0, "general", [1, 2]⟩],
    messages := [], nextId := 1, now := 0 }

/-- Two members (alice, carol) who will post concurrently; bob is a
registered non-member mention target. -/
def stC2 : PState :=
  { users := [⟨1, "alice", "alice@x.com"⟩, ⟨2, "carol", "carol@x.com"⟩,
              ⟨3, "bob", "bob@x.com"⟩],
    rooms := [⟨0, "general", [1, 2]⟩],
    messages := [], nextId := 1, now := 0 }

/-- A schedule of the two concurrent handlers of `stC2`: alice's post
(with a mention) saves first, then carol's post saves and emits in one
turn while alice's handler is suspended on the mention e-mail, then
alice's handler resumes and emits. -/
def schedC2 : List (List Action) :=
  [[Action.save ⟨0, 1, "hi @bob@x.com", 0⟩],
   [Action.save ⟨0, 2, "yo", 0⟩, Action.emitChat 0 ⟨2, "carol", "yo", 0⟩],
   [Action.sendMail "bob@x.com"],
   [Action.emitChat 0 ⟨1, "alice", "hi @bob@x.com", 0⟩]]

/-- Empty server, used to replay the create/join/delete scenario. -/
def stEmpty : PState :=
  { users := [⟨1, "alice", "alice@x.com"⟩, ⟨2, "bob", "bob@x.com"⟩],
    rooms := [], messages := [], nextId := 0, now := 0 }

/-- After alice creates room `general` (id 0, members = [alice]). -/
def stCreated : PState := (createRoom stEmpty 1 "general").1

/-- After bob additionally joins room 0 (members = [alice, bob]). -/
def stJoined : PState := (joinRoomRest stCreated 2 0).1

end Persistent

namespace Ephemeral

/-- Room `lobby` owned by alice; bob has a live session joined to the
`lobby` socket room, i.e. bob is a current member in the only membership
sense this variant has. -/
def stLobby : EState :=
  { users := [⟨1, "alice", "alice@x.com"⟩, ⟨2, "bob", "bob@x.com"⟩],
    rooms := [⟨0, "lobby", 1⟩],
    messages := [⟨0, 1, "old", 0⟩],
    present := [("lobby", 2)], now := 1 }

end Ephemeral

namespace Minimal

/-- A state with one socket joined to room `r1`. -/
def m0 : MState := { messages := [], present := [("r1", "u1")], now := 0 }

end Minimal

/-! ## Helper lemmas about the mention loop -/

namespace Persistent

theorem mailsOf_append (l₁ l₂ : List Action) :
    mailsOf (l₁ ++ l₂) = mailsOf l₁ ++ mailsOf l₂ := by
  simp [mailsOf, List.filterMap_append]

theorem mailsOf_mentionStep (users : List User) (room : Room)
    (mailOk : String → Bool) (m : String) :
    mailsOf (mentionStep users room mailOk m) =
      (match findUserByEmail users (m.drop 1) with
       | none => []
       | some u => if u.id ∈ room.members then [] else [m.drop 1]) := by
  simp only [mentionStep]
  cases findUserByEmail users (m.drop 1) with
  | none => rfl
  | some u =>
    by_cases h : u.id ∈ room.members
    · simp [h, mailsOf]
    · cases hm : mailOk (m.drop 1) <;> simp [h, hm, mailsOf]

theorem mailsOf_mentionActions (users : List User) (room : Room)
    (mailOk : String → Bool) (ms : List String) :
    mailsOf (mentionActions users room mailOk ms) = notifTargets users room ms := by
  induction ms with
  | nil => rfl
  | cons m ms ih =>
    simp only [mentionActions, List.map_cons, List.flatten_cons] at *
    rw [mailsOf_append, ih, mailsOf_mentionStep]
    simp only [notifTargets, List.filterMap_cons]
    cases findUserByEmail users (m.drop 1) with
    | none => simp [notifTargets]
    | some u =>
      by_cases h : u.id ∈ room.members <;> simp [h, notifTargets]

/-- Every action the mention loop produces is a mail send or an error log. -/
theorem mem_mentionActions {users : List User} {room : Room}
    {mailOk : String → Bool} {ms : List String} {a : Action}
    (h : a ∈ mentionActions users room mailOk ms) :
    (∃ e, a = Action.sendMail e) ∨ a = Action.logErr "Failed to send mention email" := by
  simp only [mentionActions, List.mem_flatten, List.mem_map] at h
  obtain ⟨_, ⟨m, _, rfl⟩, ha⟩ := h
  simp only [mentionStep] at ha
  cases hfind : findUserByEmail users (m.drop 1) with
  | none => rw [hfind] at ha; simp at ha
  | some u =>
    rw [hfind] at ha
    by_cases hc : u.id ∈ room.members
    · simp [hc] at ha
    · cases hm : mailOk (m.drop 1) with
      | true =>
        simp [hc, hm] at ha
        exact Or.inl ⟨m.drop 1, ha⟩
      | false =>
        simp [hc, hm] at ha
        rcases ha with h1 | h1
        · exact Or.inl ⟨m.drop 1, h1⟩
        · exact Or.inr h1

/-- A mail send in the mention loop output is always guarded: its target
resolves to a directory user outside the member array. -/
theorem sendMail_mem_mentionActions {users : List User} {room : Room}
    {mailOk : String → Bool} {ms : List String} {e : String}
    (h : Action.sendMail e ∈ mentionActions users room mailOk ms) :
    ∃ uM, findUserByEmail users e = some uM ∧ uM.id ∉ room.members := by
  simp only [mentionActions, List.mem_flatten, List.mem_map] at h
  obtain ⟨_, ⟨m, _, rfl⟩, ha⟩ := h
  simp only [mentionStep] at ha
  cases hfind : findUserByEmail users (m.drop 1) with
  | none => rw [hfind] at ha; simp at ha
  | some u =>
    rw [hfind] at ha
    by_cases hc : u.id ∈ room.members
    · simp [hc] at ha
    · have he : e = m.drop 1 := by
        cases hm : mailOk (m.drop 1) <;> simp [hc, hm] at ha <;> exact ha
      rw [he]
      exact ⟨u, hfind, hc⟩

theorem saveOrder_append (l₁ l₂ : List Action) :
    saveOrder (l₁ ++ l₂) = saveOrder l₁ ++ saveOrder l₂ := by
  simp [saveOrder, List.filterMap_append]

theorem emitOrder_append (l₁ l₂ : List Action) :
    emitOrder (l₁ ++ l₂) = emitOrder l₁ ++ emitOrder l₂ := by
  simp [emitOrder, List.filterMap_append]

theorem saveOrder_mentionActions (users : List User) (room : Room)
    (mailOk : String → Bool) (ms : List String) :
    saveOrder (mentionActions users room mailOk ms) = [] := by
  rw [saveOrder, List.filterMap_eq_nil_iff]
  intro a ha
  rcases mem_mentionActions ha with ⟨e, rfl⟩ | rfl <;> rfl

theorem emitOrder_mentionActions (users : List User) (room : Room)
    (mailOk : String → Bool) (ms : List String) :
    emitOrder (mentionActions users room mailOk ms) = [] := by
  rw [emitOrder, List.filterMap_eq_nil_iff]
  intro a ha
  rcases mem_mentionActions ha with ⟨e, rfl⟩ | rfl <;> rfl

theorem emitsOf_append (l₁ l₂ : List Action) :
    emitsOf (l₁ ++ l₂) = emitsOf l₁ ++ emitsOf l₂ := by
  simp [emitsOf, List.filter_append]

theorem emitsOf_mentionActions (users : List User) (room : Room)
    (mailOk : String → Bool) (ms : List String) :
    emitsOf (mentionActions users room mailOk ms) = [] := by
  rw [emitsOf, List.filter_eq_nil_iff]
  intro a ha
  rcases mem_mentionActions ha with ⟨e, rfl⟩ | rfl <;> simp

theorem mailsOf_cons_save (m : Message) (l : List Action) :
    mailsOf (Action.save m :: l) = mailsOf l := by
  simp [mailsOf]

theorem mailsOf_single_emit (rid : RoomId) (p : ChatPayload) :
    mailsOf [Action.emitChat rid p] = [] := by
  simp [mailsOf]

theorem emitsOf_cons_save (m : Message) (l : List Action) :
    emitsOf (Action.save m :: l) = emitsOf l := by
  simp [emitsOf]

theorem saveOrder_cons_save (m : Message) (l : List Action) :
    saveOrder (Action.save m :: l) = (m.user, m.text) :: saveOrder l := by
  simp [saveOrder, saveProj]

theorem saveOrder_single_emit (rid : RoomId) (p : ChatPayload) :
    saveOrder [Action.emitChat rid p] = [] := by
  simp [saveOrder, saveProj]

theorem emitOrder_cons_save (m : Message) (l : List Action) :
    emitOrder (Action.save m :: l) = emitOrder l := by
  simp [emitOrder, emitProj]

theorem emitOrder_single_emit (rid : RoomId) (p : ChatPayload) :
    emitOrder [Action.emitChat rid p] = [(p.userId, p.text)] := by
  simp [emitOrder, emitProj]

/-- The trace of an accepted post in the durable variant: the save, then
the mention loop output, then the single broadcast. -/
theorem chatMessage_trace (st : PState) (u : AuthUser) (data : ChatData)
    (mailOk : String → Bool) (room : Room)
    (hroom : findRoomById st.rooms data.roomId = some room)
    (hmem : u.userId ∈ room.members) :
    (chatMessage st u data true mailOk).2 =
      Action.save ⟨data.roomId, u.userId, data.message, st.now⟩ ::
      mentionActions st.users room mailOk (emailMentionMatches data.message) ++
      [Action.emitChat data.roomId
        ⟨u.userId, u.username, data.message, st.now⟩] := by
  simp [chatMessage, hroom, hmem]

end Persistent

namespace Ephemeral

/-- The trace of an accepted post in the ephemeral variant. -/
theorem chatMessage_trace_eph (st : EState) (u : AuthUser) (data : ChatData)
    (mailOk : String → Bool) (room : Room)
    (hroom : findRoomByName st.rooms data.roomName = some room) :
    (chatMessage st u data true mailOk).2 =
      Action.save ⟨room.id, u.userId, data.message, st.now⟩ ::
      mentionActions st.users mailOk (usernameMentionMatches data.message) ++
      [Action.emitChat data.roomName
        ⟨u.userId, u.username, data.message, st.now⟩] := by
  simp [chatMessage, hroom]

end Ephemeral

/-! ## Claim theorems -/

/-- C1 (amended): a `chatMessage` post into a durable-membership room by a
user outside the member array is rejected using exactly the lookup and
member check `joinRoom` performs — the state is unchanged, nothing is
appended, broadcast or mailed — but the rejection is silent: the handler
returns without producing any action, so no `NotAMember` error reaches the
caller, while the same check in `joinRoom` does surface it. -/
theorem c1_theorem (st : Persistent.PState) (u : AuthUser)
    (data : Persistent.ChatData) (saveOk : Bool) (mailOk : String → Bool)
    (room : Persistent.Room)
    (hroom : Persistent.findRoomById st.rooms data.roomId = some room)
    (hmem : u.userId ∉ room.members) :
    Persistent.chatMessage st u data saveOk mailOk = (st, []) ∧
    Persistent.joinRoom st u data.roomId =
      [Persistent.Action.ack
        (Persistent.AckPayload.error "You are not a member of this room")] := by
  constructor
  · simp [Persistent.chatMessage, hroom, hmem]
  · simp [Persistent.joinRoom, hroom, hmem]

/-- C1 witness: bob (id 2) is outside the member array of room 0 of
`stGeneral`; his post is dropped silently while his join gets the error. -/
theorem c1_witness :
    Persistent.chatMessage Persistent.stGeneral ⟨2, "bob"⟩ ⟨0, "hello"⟩
        true (fun _ => true) = (Persistent.stGeneral, []) ∧
    Persistent.joinRoom Persistent.stGeneral ⟨2, "bob"⟩ 0 =
      [Persistent.Action.ack
        (Persistent.AckPayload.error "You are not a member of this room")] :=
  c1_theorem Persistent.stGeneral ⟨2, "bob"⟩ ⟨0, "hello"⟩ true (fun _ => true)
    ⟨0, "general", [1]⟩ (by decide) (by decide)

/-- C1 counterexample: the claim requires `NotAMember` to be surfaced to
the caller; on a concrete non-member post the handler trace is empty, so
no acknowledgment of any kind (in particular no error) is produced. -/
theorem c1_counterexample :
    (Persistent.chatMessage Persistent.stGeneral ⟨2, "bob"⟩ ⟨0, "hello"⟩
        true (fun _ => true)).2 = [] ∧
    ¬ ∃ p, Persistent.Action.ack p ∈
      (Persistent.chatMessage Persistent.stGeneral ⟨2, "bob"⟩ ⟨0, "hello"⟩
        true (fun _ => true)).2 := by
  refine ⟨by decide, ?_⟩
  rintro ⟨p, hp⟩
  have h : (Persistent.chatMessage Persistent.stGeneral ⟨2, "bob"⟩ ⟨0, "hello"⟩
      true (fun _ => true)).2 = [] := by decide
  rw [h] at hp
  simp at hp

/-- C5 (amended): when the durable append fails on an authorized post, the
message is not broadcast, no mention mail is attempted and the state is
unchanged — but the failure is not surfaced to the calling connection: the
catch block only writes a console log, and the handler has no
acknowledgment channel. -/
theorem c5_theorem (st : Persistent.PState) (u : AuthUser)
    (data : Persistent.ChatData) (mailOk : String → Bool)
    (room : Persistent.Room)
    (hroom : Persistent.findRoomById st.rooms data.roomId = some room)
    (hmem : u.userId ∈ room.members) :
    Persistent.chatMessage st u data false mailOk =
      (st, [Persistent.Action.logErr "Error sending message"]) := by
  simp [Persistent.chatMessage, hroom, hmem]

/-- C5 witness: alice is a member of room 0 of `stGeneral`; with the save
oracle failing, her post produces exactly one console log. -/
theorem c5_witness :
    Persistent.chatMessage Persistent.stGeneral ⟨1, "alice"⟩ ⟨0, "hello"⟩
        false (fun _ => true) =
      (Persistent.stGeneral, [Persistent.Action.logErr "Error sending message"]) :=
  c5_theorem Persistent.stGeneral ⟨1, "alice"⟩ ⟨0, "hello"⟩ (fun _ => true)
    ⟨0, "general", [1]⟩ (by decide) (by decide)

/-- C5 counterexample: the claim requires the append failure to be
surfaced to the calling connection; on a concrete authorized post whose
save fails, the trace carries no acknowledgment and no emit — only a
console error log, which never reaches the caller. -/
theorem c5_counterexample :
    (Persistent.chatMessage Persistent.stGeneral ⟨1, "alice"⟩ ⟨0, "hello"⟩
        false (fun _ => true)).2 =
      [Persistent.Action.logErr "Error sending message"] ∧
    ¬ ∃ p, Persistent.Action.ack p ∈
      (Persistent.chatMessage Persistent.stGeneral ⟨1, "alice"⟩ ⟨0, "hello"⟩
        false (fun _ => true)).2 := by
  refine ⟨by decide, ?_⟩
  rintro ⟨p, hp⟩
  have h : (Persistent.chatMessage Persistent.stGeneral ⟨1, "alice"⟩ ⟨0, "hello"⟩
      false (fun _ => true)).2 =
      [Persistent.Action.logErr "Error sending message"] := by decide
  rw [h] at hp
  simp at hp

/-- C7 (amended): in the durable-membership variant the room schema has no
owner; `DELETE /rooms/:roomId` succeeds for exactly the users in the
member array (and then removes the room record), failing with the
membership error otherwise.  Owner-only deletion holds only in the
ephemeral variant, whose rooms do carry an owner. -/
theorem c7_theorem :
    (∀ (st : Persistent.PState) (req : UserId) (rid : RoomId)
        (room : Persistent.Room),
      Persistent.findRoomById st.rooms rid = some room →
      (((Persistent.deleteRoom st req rid).2 = Persistent.DeleteResult.deleted ↔
          req ∈ room.members) ∧
        (req ∈ room.members →
          Persistent.findRoomById (Persistent.deleteRoom st req rid).1.rooms rid =
            none))) ∧
    (∀ (st : Ephemeral.EState) (req : UserId) (roomName : String)
        (room : Ephemeral.Room),
      Ephemeral.findRoomByName st.rooms roomName = some room →
      ((Ephemeral.deleteRoom st req roomName).2 = Ephemeral.DeleteResult.deleted ↔
        room.owner = req)) := by
  constructor
  · intro st req rid room hroom
    constructor
    · simp only [Persistent.deleteRoom, hroom]
      by_cases h : req ∈ room.members <;> simp [h]
    · intro hc
      have hrooms : (Persistent.deleteRoom st req rid).1.rooms =
          st.rooms.filter (fun r => r.id != rid) := by
        simp [Persistent.deleteRoom, hroom, hc]
      rw [hrooms, Persistent.findRoomById, List.find?_eq_none]
      intro r hr
      rw [List.mem_filter] at hr
      simpa using hr.2
  · intro st req roomName room hroom
    simp only [Ephemeral.deleteRoom, hroom]
    by_cases h : room.owner = req <;> simp [h]

/-- C7 witness: with room 0 of `stJoined` having members alice and bob,
bob (a member) deletes it successfully; in the ephemeral variant, bob can
delete the alice-owned `lobby` only if he were its owner. -/
theorem c7_witness :
    ((Persistent.deleteRoom Persistent.stJoined 2 0).2 =
        Persistent.DeleteResult.deleted ↔ (2 : UserId) ∈ ([1, 2] : List UserId)) ∧
    ((Ephemeral.deleteRoom Ephemeral.stLobby 2 "lobby").2 =
        Ephemeral.DeleteResult.deleted ↔ (1 : UserId) = 2) :=
  ⟨((c7_theorem.1 Persistent.stJoined 2 0 ⟨0, "general", [1, 2]⟩ (by decide)).1),
   c7_theorem.2 Ephemeral.stLobby 2 "lobby" ⟨0, "lobby", 1⟩ (by decide)⟩

/-- C7 counterexample: alice (id 1) creates room `general`; bob (id 2)
joins; bob — a member but not the creator/owner — deletes the room and
the durable record disappears.  The claim that only the owner can delete
an OWNED_PERSISTENT room fails. -/
theorem c7_counterexample :
    Persistent.stCreated.rooms = [⟨0, "general", [1]⟩] ∧
    Persistent.stJoined.rooms = [⟨0, "general", [1, 2]⟩] ∧
    (2 : UserId) ≠ 1 ∧
    (Persistent.deleteRoom Persistent.stJoined 2 0).2 =
      Persistent.DeleteResult.deleted ∧
    Persistent.findRoomById
      (Persistent.deleteRoom Persistent.stJoined 2 0).1.rooms 0 = none := by
  decide

/-- C9 (confirmed): the minimal `sendMessage` handler appends and
broadcasts a message whose `sender` is exactly the client-supplied
`userId`, with no check against any authenticated identity: two runs
differing only in the claimed `userId` produce messages identical except
for their author attribution. -/
theorem c9_theorem (st : Minimal.MState) (p₁ p₂ : Minimal.SendPayload)
    (hr : p₁.roomId = p₂.roomId) (hc : p₁.content = p₂.content)
    (hu : p₁.userId ≠ p₂.userId) :
    ∃ m₁ m₂ : Minimal.MMessage,
      (Minimal.sendMessage st p₁).1.messages = st.messages ++ [m₁] ∧
      (Minimal.sendMessage st p₂).1.messages = st.messages ++ [m₂] ∧
      (Minimal.sendMessage st p₁).2 =
        [Minimal.Action.save m₁, Minimal.Action.emitNew p₁.roomId m₁] ∧
      (Minimal.sendMessage st p₂).2 =
        [Minimal.Action.save m₂, Minimal.Action.emitNew p₂.roomId m₂] ∧
      m₁.sender = p₁.userId ∧ m₂.sender = p₂.userId ∧ m₁.sender ≠ m₂.sender ∧
      m₁.roomId = m₂.roomId ∧ m₁.content = m₂.content ∧
      m₁.createdAt = m₂.createdAt :=
  ⟨⟨p₁.roomId, p₁.userId, p₁.content, st.now⟩,
   ⟨p₂.roomId, p₂.userId, p₂.content, st.now⟩,
   rfl, rfl, rfl, rfl, rfl, rfl, hu, hr, hc, rfl⟩

/-- C9 witness: two `sendMessage` events on `m0` identical except for the
claimed `userId` append and broadcast differently-attributed messages. -/
theorem c9_witness :
    ∃ m₁ m₂ : Minimal.MMessage,
      (Minimal.sendMessage Minimal.m0 ⟨"r1", "alice", "hi"⟩).1.messages =
        Minimal.m0.messages ++ [m₁] ∧
      (Minimal.sendMessage Minimal.m0 ⟨"r1", "mallory", "hi"⟩).1.messages =
        Minimal.m0.messages ++ [m₂] ∧
      (Minimal.sendMessage Minimal.m0 ⟨"r1", "alice", "hi"⟩).2 =
        [Minimal.Action.save m₁, Minimal.Action.emitNew "r1" m₁] ∧
      (Minimal.sendMessage Minimal.m0 ⟨"r1", "mallory", "hi"⟩).2 =
        [Minimal.Action.save m₂, Minimal.Action.emitNew "r1" m₂] ∧
      m₁.sender = "alice" ∧ m₂.sender = "mallory" ∧ m₁.sender ≠ m₂.sender ∧
      m₁.roomId = m₂.roomId ∧ m₁.content = m₂.content ∧
      m₁.createdAt = m₂.createdAt :=
  c9_theorem Minimal.m0 ⟨"r1", "alice", "hi"⟩ ⟨"r1", "mallory", "hi"⟩
    rfl rfl (by decide)

/-- C10 (confirmed): the ephemeral message-history endpoint performs no
membership or ownership check: its response is the same for any two
authenticated requesters, it never returns the forbidden outcome, and
whenever the room exists it returns the room's full message list. -/
theorem c10_theorem (st : Ephemeral.EState) (r₁ r₂ : AuthUser)
    (roomName : String) :
    Ephemeral.getMessages st r₁ roomName = Ephemeral.getMessages st r₂ roomName ∧
    Ephemeral.getMessages st r₁ roomName ≠ Ephemeral.MessagesResult.forbidden ∧
    ∀ room, Ephemeral.findRoomByName st.rooms roomName = some room →
      Ephemeral.getMessages st r₁ roomName =
        Ephemeral.MessagesResult.ok
          (st.messages.filter (fun m => m.room == room.id)) := by
  refine ⟨rfl, ?_, ?_⟩
  · unfold Ephemeral.getMessages
    cases Ephemeral.findRoomByName st.rooms roomName <;> simp
  · intro room h
    unfold Ephemeral.getMessages
    rw [h]

/-- C10 witness: bob, who never joined `lobby` and does not own it, reads
its full history. -/
theorem c10_witness :
    Ephemeral.getMessages Ephemeral.stLobby ⟨2, "bob"⟩ "lobby" =
      Ephemeral.MessagesResult.ok [⟨0, 1, "old", 0⟩] := by
  have h := (c10_theorem Ephemeral.stLobby ⟨2, "bob"⟩ ⟨1, "alice"⟩ "lobby").2.2
    ⟨0, "lobby", 1⟩ (by decide)
  rw [h]
  decide

/-- C3 (amended): in the durable variant the mention loop is guarded — a
mention whose e-mail resolves to a user inside the member array never
produces a mail send.  In the ephemeral variant the guard is absent: the
handler never reads the socket-room presence (its trace is invariant under
any change of the presence relation), and every resolved username mention
is mailed, current member or not. -/
theorem c3_theorem :
    (∀ (st : Persistent.PState) (u : AuthUser) (data : Persistent.ChatData)
        (saveOk : Bool) (mailOk : String → Bool) (room : Persistent.Room)
        (uM : User) (e : String),
      Persistent.findRoomById st.rooms data.roomId = some room →
      Persistent.findUserByEmail st.users e = some uM →
      uM.id ∈ room.members →
      Persistent.Action.sendMail e ∉
        (Persistent.chatMessage st u data saveOk mailOk).2) ∧
    (∀ (st : Ephemeral.EState) (pr pr' : List (String × UserId)) (u : AuthUser)
        (data : Ephemeral.ChatData) (saveOk : Bool) (mailOk : String → Bool),
      (Ephemeral.chatMessage { st with present := pr } u data saveOk mailOk).2 =
        (Ephemeral.chatMessage { st with present := pr' } u data saveOk mailOk).2) ∧
    (∀ (st : Ephemeral.EState) (u : AuthUser) (data : Ephemeral.ChatData)
        (mailOk : String → Bool) (room : Ephemeral.Room) (m : String) (uM : User),
      Ephemeral.findRoomByName st.rooms data.roomName = some room →
      m ∈ usernameMentionMatches data.message →
      Ephemeral.findUserByUsername st.users (m.drop 1) = some uM →
      Ephemeral.Action.sendMail uM.email ∈
        (Ephemeral.chatMessage st u data true mailOk).2) := by
  refine ⟨?_, ?_, ?_⟩
  · intro st u data saveOk mailOk room uM e hroom hfind hmem hIn
    simp only [Persistent.chatMessage, hroom] at hIn
    by_cases hS : u.userId ∈ room.members
    · cases saveOk with
      | false => simp [hS] at hIn
      | true =>
        simp [hS] at hIn
        obtain ⟨uM', hfind', hc'⟩ := Persistent.sendMail_mem_mentionActions hIn
        rw [hfind] at hfind'
        injection hfind' with h
        subst h
        exact hc' hmem
    · simp [hS] at hIn
  · intro st pr pr' u data saveOk mailOk
    cases h : Ephemeral.findRoomByName st.rooms data.roomName with
    | none => simp [Ephemeral.chatMessage, h]
    | some room => cases saveOk <;> simp [Ephemeral.chatMessage, h]
  · intro st u data mailOk room m uM hroom hm hfindU
    have hstep : Ephemeral.Action.sendMail uM.email ∈
        Ephemeral.mentionStep st.users mailOk m := by
      simp only [Ephemeral.mentionStep, hfindU]
      cases h : mailOk uM.email <;> simp [h]
    rw [Ephemeral.chatMessage_trace_eph st u data mailOk room hroom]
    refine List.mem_cons_of_mem _ (List.mem_append_left _ ?_)
    simp only [Ephemeral.mentionActions, List.mem_flatten]
    exact ⟨_, List.mem_map_of_mem _ hm, hstep⟩

/-- C3 witness: in the durable `stBobMember` (bob is a member) a mention
of bob sends nothing; in the ephemeral `stLobby` (bob has a live session
in `lobby`) a mention of bob is mailed regardless. -/
theorem c3_witness :
    (Persistent.Action.sendMail "bob@x.com" ∉
      (Persistent.chatMessage Persistent.stBobMember ⟨1, "alice"⟩
        ⟨0, "hi @bob@x.com"⟩ true (fun _ => true)).2) ∧
    (Ephemeral.Action.sendMail "bob@x.com" ∈
      (Ephemeral.chatMessage Ephemeral.stLobby ⟨1, "alice"⟩
        ⟨"lobby", "hi @bob"⟩ true (fun _ => true)).2) :=
  ⟨c3_theorem.1 Persistent.stBobMember ⟨1, "alice"⟩ ⟨0, "hi @bob@x.com"⟩ true
      (fun _ => true) ⟨0, "general", [1, 2]⟩ ⟨2, "bob", "bob@x.com"⟩ "bob@x.com"
      (by decide) (by decide) (by decide),
   c3_theorem.2.2 Ephemeral.stLobby ⟨1, "alice"⟩ ⟨"lobby", "hi @bob"⟩
      (fun _ => true) ⟨0, "lobby", 1⟩ "@bob" ⟨2, "bob", "bob@x.com"⟩
      (by decide) (by decide) (by decide)⟩

/-- C3 counterexample: bob currently has a live session joined to the
ephemeral room `lobby` — he is a member in the only sense this variant
has — yet a post mentioning him dispatches a notification to him. -/
theorem c3_counterexample :
    ("lobby", 2) ∈ Ephemeral.stLobby.present ∧
    Ephemeral.Action.sendMail "bob@x.com" ∈
      (Ephemeral.chatMessage Ephemeral.stLobby ⟨1, "alice"⟩
        ⟨"lobby", "hi @bob"⟩ true (fun _ => true)).2 := by
  constructor
  · decide
  · decide

/-- C4 (amended): there is no de-duplication — the mail targets of an
accepted post are exactly the regex occurrences whose e-mail resolves to
a user outside the member array, one mail per occurrence, duplicates
kept. -/
theorem c4_theorem (st : Persistent.PState) (u : AuthUser)
    (data : Persistent.ChatData) (mailOk : String → Bool)
    (room : Persistent.Room)
    (hroom : Persistent.findRoomById st.rooms data.roomId = some room)
    (hmem : u.userId ∈ room.members) :
    Persistent.mailsOf (Persistent.chatMessage st u data true mailOk).2 =
      Persistent.notifTargets st.users room (emailMentionMatches data.message) := by
  rw [Persistent.chatMessage_trace st u data mailOk room hroom hmem,
    Persistent.mailsOf_append, Persistent.mailsOf_cons_save,
    Persistent.mailsOf_mentionActions, Persistent.mailsOf_single_emit,
    List.append_nil]

/-- C4 witness: on a message mentioning bob twice, the mail-target list
equals the per-occurrence target list. -/
theorem c4_witness :
    Persistent.mailsOf (Persistent.chatMessage Persistent.stGeneral ⟨1, "alice"⟩
        ⟨0, "hi @bob@x.com and @bob@x.com"⟩ true (fun _ => true)).2 =
      Persistent.notifTargets Persistent.stGeneral.users ⟨0, "general", [1]⟩
        (emailMentionMatches "hi @bob@x.com and @bob@x.com") :=
  c4_theorem Persistent.stGeneral ⟨1, "alice"⟩ ⟨0, "hi @bob@x.com and @bob@x.com"⟩
    (fun _ => true) ⟨0, "general", [1]⟩ (by decide) (by decide)

/-- C4 counterexample: a message containing the same mention token twice
triggers two notifications to the same resolved identity, refuting the
at-most-once claim. -/
theorem c4_counterexample :
    ¬ (Persistent.mailsOf (Persistent.chatMessage Persistent.stGeneral ⟨1, "alice"⟩
        ⟨0, "hi @bob@x.com and @bob@x.com"⟩ true (fun _ => true)).2).count
        "bob@x.com" ≤ 1 := by
  decide

/-- C6 (amended): notification dispatch is not detached — the mention
mails are awaited inline before the broadcast — but failure isolation
does hold: the set of attempted mails, the broadcast and the resulting
state are all independent of which deliveries fail, and the broadcast is
always issued exactly once on an accepted post. -/
theorem c6_theorem (st : Persistent.PState) (u : AuthUser)
    (data : Persistent.ChatData) (mailOk mailOk' : String → Bool)
    (room : Persistent.Room)
    (hroom : Persistent.findRoomById st.rooms data.roomId = some room)
    (hmem : u.userId ∈ room.members) :
    Persistent.mailsOf (Persistent.chatMessage st u data true mailOk).2 =
      Persistent.mailsOf (Persistent.chatMessage st u data true mailOk').2 ∧
    Persistent.emitsOf (Persistent.chatMessage st u data true mailOk).2 =
      [Persistent.Action.emitChat data.roomId
        ⟨u.userId, u.username, data.message, st.now⟩] ∧
    (Persistent.chatMessage st u data true mailOk).1 =
      (Persistent.chatMessage st u data true mailOk').1 := by
  refine ⟨?_, ?_, ?_⟩
  · rw [Persistent.chatMessage_trace st u data mailOk room hroom hmem,
      Persistent.chatMessage_trace st u data mailOk' room hroom hmem,
      Persistent.mailsOf_append, Persistent.mailsOf_append,
      Persistent.mailsOf_cons_save, Persistent.mailsOf_cons_save,
      Persistent.mailsOf_mentionActions, Persistent.mailsOf_mentionActions]
  · rw [Persistent.chatMessage_trace st u data mailOk room hroom hmem,
      Persistent.emitsOf_append, Persistent.emitsOf_cons_save,
      Persistent.emitsOf_mentionActions]
    simp [Persistent.emitsOf]
  · simp [Persistent.chatMessage, hroom, hmem]

/-- C6 witness: with every delivery succeeding versus every delivery
failing, alice's post attempts the same mails, broadcasts once, and
reaches the same state. -/
theorem c6_witness :
    Persistent.mailsOf (Persistent.chatMessage Persistent.stGeneral ⟨1, "alice"⟩
        ⟨0, "hi @bob@x.com"⟩ true (fun _ => true)).2 =
      Persistent.mailsOf (Persistent.chatMessage Persistent.stGeneral ⟨1, "alice"⟩
        ⟨0, "hi @bob@x.com"⟩ true (fun _ => false)).2 ∧
    Persistent.emitsOf (Persistent.chatMessage Persistent.stGeneral ⟨1, "alice"⟩
        ⟨0, "hi @bob@x.com"⟩ true (fun _ => true)).2 =
      [Persistent.Action.emitChat 0 ⟨1, "alice", "hi @bob@x.com", 0⟩] ∧
    (Persistent.chatMessage Persistent.stGeneral ⟨1, "alice"⟩
        ⟨0, "hi @bob@x.com"⟩ true (fun _ => true)).1 =
      (Persistent.chatMessage Persistent.stGeneral ⟨1, "alice"⟩
        ⟨0, "hi @bob@x.com"⟩ true (fun _ => false)).1 :=
  c6_theorem Persistent.stGeneral ⟨1, "alice"⟩ ⟨0, "hi @bob@x.com"⟩
    (fun _ => true) (fun _ => false) ⟨0, "general", [1]⟩ (by decide) (by decide)

/-- C6 counterexample: on a concrete accepted post with one mention, a
notification send occurs strictly before the broadcast in the handler
trace — the broadcast waits for the awaited mention delivery, refuting
the detachment claim. -/
theorem c6_counterexample :
    Persistent.mailsBeforeEmit (Persistent.chatMessage Persistent.stGeneral
        ⟨1, "alice"⟩ ⟨0, "hi @bob@x.com"⟩ true (fun _ => true)).2 =
      ["bob@x.com"] := by
  decide

/-- In each single handler trace, the appended messages and the broadcast
messages project to the same sequence. -/
theorem chatMessage_proj (st : Persistent.PState) (u : AuthUser)
    (data : Persistent.ChatData) (saveOk : Bool) (mailOk : String → Bool) :
    Persistent.saveOrder (Persistent.chatMessage st u data saveOk mailOk).2 =
      Persistent.emitOrder (Persistent.chatMessage st u data saveOk mailOk).2 := by
  cases hroom : Persistent.findRoomById st.rooms data.roomId with
  | none =>
    simp [Persistent.chatMessage, hroom, Persistent.saveOrder, Persistent.emitOrder]
  | some room =>
    by_cases hS : u.userId ∈ room.members
    · cases saveOk with
      | false =>
        simp [Persistent.chatMessage, hroom, hS, Persistent.saveOrder,
          Persistent.emitOrder, Persistent.saveProj, Persistent.emitProj]
      | true =>
        rw [Persistent.chatMessage_trace st u data mailOk room hroom hS,
          Persistent.saveOrder_append, Persistent.emitOrder_append,
          Persistent.saveOrder_cons_save, Persistent.emitOrder_cons_save,
          Persistent.saveOrder_mentionActions, Persistent.emitOrder_mentionActions,
          Persistent.saveOrder_single_emit, Persistent.emitOrder_single_emit]
        simp
    · simp [Persistent.chatMessage, hroom, hS, Persistent.saveOrder,
        Persistent.emitOrder]

/-- The chunked await model of a handler flattens to its trace. -/
theorem chatChunks_flatten (st : Persistent.PState) (u : AuthUser)
    (data : Persistent.ChatData) (saveOk : Bool) (mailOk : String → Bool) :
    (Persistent.chatChunks st u data saveOk mailOk).flatten =
      (Persistent.chatMessage st u data saveOk mailOk).2 := by
  cases hroom : Persistent.findRoomById st.rooms data.roomId with
  | none => simp [Persistent.chatChunks, Persistent.chatMessage, hroom]
  | some room =>
    by_cases hS : u.userId ∈ room.members
    · cases saveOk with
      | false => simp [Persistent.chatChunks, Persistent.chatMessage, hroom, hS]
      | true =>
        cases hm : emailMentionMatches data.message with
        | nil =>
          simp [Persistent.chatChunks, Persistent.chatMessage, hroom, hS, hm,
            Persistent.mentionActions]
        | cons m ms =>
          simp [Persistent.chatChunks, Persistent.chatMessage, hroom, hS, hm,
            Persistent.mentionActions]
    · simp [Persistent.chatChunks, Persistent.chatMessage, hroom, hS]

/-- C2 (amended): when the accepted posts of a room are processed to
completion one after the other, the broadcast order equals the append
order — each handler emits exactly what it appended, directly after it.
Under the actual event-loop semantics the handler suspends between append
and broadcast (mention lookups and mails are awaited in between), so for
interleaved handlers the two orders can differ (see the counterexample);
sequential execution restores the claimed equality. -/
theorem c2_theorem (st : Persistent.PState) (mailOk : String → Bool)
    (posts : List (AuthUser × Persistent.ChatData × Bool)) :
    Persistent.saveOrder (Persistent.runPosts st mailOk posts).2 =
      Persistent.emitOrder (Persistent.runPosts st mailOk posts).2 := by
  induction posts generalizing st with
  | nil => rfl
  | cons p ps ih =>
    obtain ⟨u, d, ok⟩ := p
    simp only [Persistent.runPosts]
    rw [Persistent.saveOrder_append, Persistent.emitOrder_append,
      chatMessage_proj, ih]

/-- C2 counterexample: a legal interleaving of two concurrent accepted
posts for one room — alice's handler suspends on its awaited mention
mail between its append and its broadcast, during which carol's handler
appends and broadcasts — yields broadcast order different from append
order, refuting the claimed identity of the two sequences. -/
theorem c2_counterexample :
    Shuffle
      (Persistent.chatChunks Persistent.stC2 ⟨1, "alice"⟩ ⟨0, "hi @bob@x.com"⟩
        true (fun _ => true))
      (Persistent.chatChunks Persistent.stC2 ⟨2, "carol"⟩ ⟨0, "yo"⟩
        true (fun _ => true))
      Persistent.schedC2 ∧
    Persistent.saveOrder Persistent.schedC2.flatten ≠
      Persistent.emitOrder Persistent.schedC2.flatten := by
  constructor
  · have h1 : Persistent.chatChunks Persistent.stC2 ⟨1, "alice"⟩
        ⟨0, "hi @bob@x.com"⟩ true (fun _ => true) =
        [[Persistent.Action.save ⟨0, 1, "hi @bob@x.com", 0⟩],
         [Persistent.Action.sendMail "bob@x.com"],
         [Persistent.Action.emitChat 0 ⟨1, "alice", "hi @bob@x.com", 0⟩]] := by
      decide
    have h2 : Persistent.chatChunks Persistent.stC2 ⟨2, "carol"⟩ ⟨0, "yo"⟩
        true (fun _ => true) =
        [[Persistent.Action.save ⟨0, 2, "yo", 0⟩,
          Persistent.Action.emitChat 0 ⟨2, "carol", "yo", 0⟩]] := by
      decide
    rw [h1, h2]
    exact Shuffle.left (Shuffle.right (Shuffle.left (Shuffle.left Shuffle.nil)))
  · decide

/-- C8 (amended): in both halves of `src/back/server.js` the handshake
middleware is the first gate — a connection whose token is missing or
fails verification is rejected with an auth error before any of its
events runs, and no event of such a connection changes any state.  The
minimal variant of `src/server/src/socket.js`, however, installs no
authentication at all: every event is processed and mutates state without
any identity being established. -/
theorem c8_theorem :
    (∀ (st : Persistent.PState) (tok : Option SignedToken) (secret : String)
        (evs : List Persistent.PEvent),
      (∀ u, ioUse tok secret ≠ AdmitResult.admitted u) →
      ((Persistent.processConnection st tok secret evs).1 = st ∧
        (Persistent.processConnection st tok secret evs).2.1 = [] ∧
        (Persistent.processConnection st tok secret evs).2.2 ≠ none)) ∧
    (∀ (m : Minimal.MState) (p : Minimal.SendPayload),
      (Minimal.sendMessage m p).1.messages =
        m.messages ++ [⟨p.roomId, p.userId, p.content, m.now⟩] ∧
      (Minimal.sendMessage m p).2 ≠ []) := by
  constructor
  · intro st tok secret evs hne
    cases h : ioUse tok secret with
    | noToken => simp [Persistent.processConnection, h]
    | invalidToken => simp [Persistent.processConnection, h]
    | admitted u => exact absurd h (hne u)
  · intro m p
    exact ⟨rfl, by simp [Minimal.sendMessage]⟩

/-- C8 witness: a connection presenting no token is rejected before its
`chatMessage` event can run: the state is untouched, no action happens,
and the auth error is reported. -/
theorem c8_witness :
    (Persistent.processConnection Persistent.stGeneral none "secret"
        [Persistent.PEvent.chatMessage ⟨0, "hello"⟩]).1 = Persistent.stGeneral ∧
    (Persistent.processConnection Persistent.stGeneral none "secret"
        [Persistent.PEvent.chatMessage ⟨0, "hello"⟩]).2.1 = [] ∧
    (Persistent.processConnection Persistent.stGeneral none "secret"
        [Persistent.PEvent.chatMessage ⟨0, "hello"⟩]).2.2 ≠ none :=
  c8_theorem.1 Persistent.stGeneral none "secret"
    [Persistent.PEvent.chatMessage ⟨0, "hello"⟩]
    (fun u h => by simp [ioUse] at h)

/-- C8 counterexample: in the minimal socket variant a connection that
never authenticated (the variant has no authentication step at all) sends
a `sendMessage` event that both mutates the message log and broadcasts —
no `AuthError` exists, refuting the claim for this handler. -/
theorem c8_counterexample :
    (Minimal.sendMessage Minimal.m0 ⟨"r1", "mallory", "hi"⟩).1.messages ≠
      Minimal.m0.messages ∧
    (Minimal.sendMessage Minimal.m0 ⟨"r1", "mallory", "hi"⟩).2 ≠ [] := by
  decide

end AnywhereChat
